import Mathlib

/-!
Verification of the `codeagent-wrapper` skill resolver and agent-prompt-file
logic (`internal/executor` and `internal/app` of the repository).

Go strings are byte strings; every function under scrutiny manipulates them
byte by byte (`len`, slicing).  We model a Go string as a `List Char` in
which every element stands for one byte, so `List.length` is the Go `len`
and `List.take`/`List.drop` are Go slicing.  File-system effects
(`os.Stat`, `os.ReadFile`, `filepath.EvalSymlinks`) are modelled by record
fields mapping paths to results; paths are lists of cleaned components.
-/

/-- A Go byte string: one `Char` per byte. -/
abbrev GoStr := List Char

/-- Shorthand to write Go string literals. -/
def gs (s : String) : GoStr := s.toList

/-- A cleaned absolute file-system path, as its list of components. -/
abbrev GoPath := List GoStr

/-- The ASCII white-space bytes recognised by Go `strings.TrimSpace`
(`unicode.IsSpace` restricted to one byte). -/
def isSpaceChar (c : Char) : Bool :=
  c = ' ' || c = '\t' || c = '\n' || c = Char.ofNat 11 || c = Char.ofNat 12 || c = '\r'

/-- Go `strings.TrimSpace`: drop white space from both ends. -/
def goTrimSpace (s : GoStr) : GoStr :=
  ((s.dropWhile isSpaceChar).reverse.dropWhile isSpaceChar).reverse

/-- Is the byte a carriage return or a line feed? (the cut set of
`strings.TrimRight(s, "\r\n")`). -/
def isCRLFChar (c : Char) : Bool :=
  c = '\r' || c = '\n'

/-- Go `strings.TrimRight(s, "\r\n")`: drop trailing CR and LF bytes. -/
def goTrimRightCRLF (s : GoStr) : GoStr :=
  (s.reverse.dropWhile isCRLFChar).reverse

/-- Go `strings.ReplaceAll(s, "\r\n", "\n")`: left-to-right, non-overlapping. -/
def replaceCRLF : GoStr → GoStr
  | [] => []
  | '\r' :: '\n' :: rest => '\n' :: replaceCRLF rest
  | c :: rest => c :: replaceCRLF rest

/-- Go `strings.Index(s, sub)`: position of the first occurrence of `sub`
in `s`, `none` standing for Go's `-1`. -/
def goIndex (sub : GoStr) : GoStr → Option Nat
  | [] => if sub.isEmpty then some 0 else none
  | c :: rest =>
    if sub.isPrefixOf (c :: rest) then some 0
    else (goIndex sub rest).map (· + 1)

/-- `stripYAMLFrontmatter` from `internal/executor`: normalise CRLF to LF,
then, when the text starts with `---` and a later line starts with `---`,
drop everything through that closing delimiter and trim the remainder. -/
def stripYAMLFrontmatter (s0 : GoStr) : GoStr :=
  let s := replaceCRLF s0
  if (gs "---").isPrefixOf s then
    match goIndex (gs "\n---") (s.drop 3) with
    | none => s
    | some idx =>
      let result := s.drop (3 + idx + 4)
      let result := if result.head? = some '\n' then result.drop 1 else result
      goTrimSpace result
  else s

/-- `wrapTaskWithAgentPrompt` from `internal/app` (identical to
`WrapTaskWithAgentPrompt` in `internal/executor`). -/
def wrapTaskWithAgentPrompt (prompt task : GoStr) : GoStr :=
  gs "<agent-prompt>\n" ++ prompt ++ gs "\n</agent-prompt>\n\n" ++ task

-- Sanity checks against the Go unit tests (`TestStripYAMLFrontmatter`).
example :
    stripYAMLFrontmatter (gs "---\nname: test\ndescription: foo\n---\n\n# Body\nContent here.")
      = gs "# Body\nContent here." := by decide

example : stripYAMLFrontmatter (gs "# Just a body\nNo frontmatter.")
      = gs "# Just a body\nNo frontmatter." := by decide

example : stripYAMLFrontmatter (gs "") = gs "" := by decide

example : stripYAMLFrontmatter (gs "---\nname: test\n---") = gs "" := by decide

example : stripYAMLFrontmatter (gs "---\r\nname: test\r\n---\r\n\r\n# Body\r\nContent.")
      = gs "# Body\nContent." := by decide

example : wrapTaskWithAgentPrompt (gs "P") (gs "do")
      = gs "<agent-prompt>\nP\n</agent-prompt>\n\ndo" := by decide

/-! ## The skill resolver (`internal/executor`) -/

/-- The file-system effects used by the skill resolver: `os.Stat` success
and `os.ReadFile` (where `none` models any read error). -/
structure SkillFS where
  statOk : GoPath → Bool
  readFile : GoPath → Option GoStr

/-- `filepath.Join(home, ".codex", "skills", name, "SKILL.md")`. -/
def codexSkillPath (home : GoPath) (name : GoStr) : GoPath :=
  home ++ [gs ".codex", gs "skills", name, gs "SKILL.md"]

/-- `filepath.Join(home, ".claude", "skills", name, "SKILL.md")`. -/
def claudeSkillPath (home : GoPath) (name : GoStr) : GoPath :=
  home ++ [gs ".claude", gs "skills", name, gs "SKILL.md"]

/-- `findSkillFile`: probe the Codex root first, then the Claude root;
`none` stands for the Go empty-string result. -/
def findSkillFile (fs : SkillFS) (home : GoPath) (skill : GoStr) : Option GoPath :=
  if fs.statOk (codexSkillPath home skill) then some (codexSkillPath home skill)
  else if fs.statOk (claudeSkillPath home skill) then some (claudeSkillPath home skill)
  else none

/-- One byte of the class `[a-zA-Z0-9_-]`. -/
def isSkillChar (c : Char) : Bool :=
  ('a' ≤ c && c ≤ 'z') || ('A' ≤ c && c ≤ 'Z') || ('0' ≤ c && c ≤ '9') || c = '_' || c = '-'

/-- The anchored regular expression `^[a-zA-Z0-9_-]+$` (`validSkillName`). -/
def validSkillName (s : GoStr) : Bool :=
  !s.isEmpty && s.all isSkillChar

/-- `defaultSkillBudget` from the source. -/
def defaultSkillBudget : Int := 16000

/-- The per-skill tag overhead:
`len("<skill name=\"\">") + len(name) + len("\n") + len("\n</skill>")`. -/
def tagOverhead (name : GoStr) : Nat :=
  (gs "<skill name=\"\">").length + name.length + (gs "\n").length + (gs "\n</skill>").length

/-- The wrapped block `"<skill name=\"" + name + "\">\n" + body + "\n</skill>"`. -/
def skillBlock (name body : GoStr) : GoStr :=
  gs "<skill name=\"" ++ name ++ gs "\">\n" ++ body ++ gs "\n</skill>"

/-- The outcome of one iteration of the `ResolveSkillContent` loop:
`skip` models `continue`, `stop` the `break` before appending, `last b`
appending `b` and then breaking on `remaining <= 0`, and `cont b r`
appending `b` and continuing with remaining budget `r`. -/
inductive SkillStep where
  | skip : SkillStep
  | stop : SkillStep
  | last : GoStr → SkillStep
  | cont : GoStr → Int → SkillStep
deriving DecidableEq

/-- One iteration of the `ResolveSkillContent` loop on the requested name
`name0` with `remaining` budget, transcribing the loop body verbatim. -/
def skillStep (fs : SkillFS) (home : GoPath) (name0 : GoStr) (remaining : Int) : SkillStep :=
  let name := goTrimSpace name0
  if name.isEmpty then SkillStep.skip
  else if !validSkillName name then SkillStep.skip
  else
    match findSkillFile fs home name with
    | none => SkillStep.skip
    | some path =>
      match fs.readFile path with
      | none => SkillStep.skip
      | some data =>
        if data.isEmpty then SkillStep.skip
        else
          let body := stripYAMLFrontmatter (goTrimSpace data)
          let bodyBudget : Int := remaining - (tagOverhead name : Int)
          if bodyBudget ≤ 0 then SkillStep.stop
          else
            let body2 := if (body.length : Int) > bodyBudget then body.take bodyBudget.toNat else body
            let remaining2 := remaining - ((body2.length : Int) + (tagOverhead name : Int))
            if remaining2 ≤ 0 then SkillStep.last (skillBlock name body2)
            else SkillStep.cont (skillBlock name body2) remaining2

/-- The `ResolveSkillContent` loop, producing the list of wrapped blocks
(`sections` in the source) from the requested names and the remaining
budget (a Go `int`, hence `Int`). -/
def resolveSkillSections (fs : SkillFS) (home : GoPath) : List GoStr → Int → List GoStr
  | [], _ => []
  | name0 :: rest, remaining =>
    match skillStep fs home name0 remaining with
    | SkillStep.skip => resolveSkillSections fs home rest remaining
    | SkillStep.stop => []
    | SkillStep.last block => [block]
    | SkillStep.cont block remaining2 => block :: resolveSkillSections fs home rest remaining2

/-- `strings.Join(sections, "\n\n")`. -/
def joinSections : List GoStr → GoStr
  | [] => []
  | [s] => s
  | s :: rest => s ++ gs "\n\n" ++ joinSections rest

/-- `ResolveSkillContent`: `home?` is the `os.UserHomeDir` result
(`none` models its error, which yields the empty result). -/
def ResolveSkillContent (fs : SkillFS) (home? : Option GoPath)
    (skills : List GoStr) (maxBudget : Int) : GoStr :=
  match home? with
  | none => []
  | some home =>
    let budget := if maxBudget ≤ 0 then defaultSkillBudget else maxBudget
    joinSections (resolveSkillSections fs home skills budget)

/-- `techSkillMap` from the source: fingerprint files paired with skills. -/
def techSkillMap : List (List GoStr × List GoStr) :=
  [ ([gs "go.mod", gs "go.sum"], [gs "golang-base-practices"]),
    ([gs "Cargo.toml"], [gs "rust-best-practices"]),
    ([gs "pyproject.toml", gs "setup.py", gs "requirements.txt", gs "Pipfile"],
      [gs "python-best-practices"]),
    ([gs "package.json"], [gs "vercel-react-best-practices", gs "frontend-design"]),
    ([gs "vue.config.js", gs "vite.config.ts", gs "nuxt.config.ts"], [gs "vue-web-app"]) ]

/-- The inner loop of `DetectProjectSkills` over one entry's skills,
threading the `seen` set and the `detected` accumulator. -/
def addEntrySkills (fs : SkillFS) (home : GoPath) :
    List GoStr → List GoStr × List GoStr → List GoStr × List GoStr
  | [], st => st
  | skill :: more, (seen, acc) =>
    if seen.contains skill then addEntrySkills fs home more (seen, acc)
    else
      match findSkillFile fs home skill with
      | some _ => addEntrySkills fs home more (seen ++ [skill], acc ++ [skill])
      | none => addEntrySkills fs home more (seen, acc)

/-- The outer loop of `DetectProjectSkills` over `techSkillMap`.  The Go
code breaks out of the file loop at the first fingerprint that stats, so
only the existence of one (`List.any`) matters. -/
def detectAux (fs : SkillFS) (home workDir : GoPath) :
    List (List GoStr × List GoStr) → List GoStr × List GoStr → List GoStr × List GoStr
  | [], st => st
  | (files, skills) :: entries, st =>
    if files.any (fun f => fs.statOk (workDir ++ [f])) then
      detectAux fs home workDir entries (addEntrySkills fs home skills st)
    else detectAux fs home workDir entries st

/-- `DetectProjectSkills`: scan `workDir` for tech-stack fingerprints and
return the installed skills; a home-directory error yields `[]`. -/
def DetectProjectSkills (fs : SkillFS) (home? : Option GoPath) (workDir : GoPath) : List GoStr :=
  match home? with
  | none => []
  | some home => (detectAux fs home workDir techSkillMap ([], [])).2

-- A concrete file system mirroring `TestResolveSkillContent_ValidSkill`.
def exampleHome : GoPath := [gs "home", gs "u"]

def exampleFS : SkillFS where
  statOk := fun p => p = codexSkillPath exampleHome (gs "test-skill")
  readFile := fun p =>
    if p = codexSkillPath exampleHome (gs "test-skill") then
      some (gs "---\nname: test\n---\n\n# Test Skill\nBest practices here.")
    else none

example :
    ResolveSkillContent exampleFS (some exampleHome) [gs "test-skill"] 0
      = gs "<skill name=\"test-skill\">\n# Test Skill\nBest practices here.\n</skill>" := by
  decide

example : ResolveSkillContent exampleFS (some exampleHome) [gs "../bad"] 0 = gs "" := by
  decide

example : ResolveSkillContent exampleFS (some exampleHome) [gs "nonexistent-skill-xyz"] 0
      = gs "" := by decide

/-! ## The agent-prompt-file reader (`readAgentPromptFile`)

Paths are cleaned absolute component lists.  For such paths Go's
`isWithinDir` closure (`filepath.Rel(dir, path)` neither `".."` nor
starting with `"../"`) holds exactly when `dir`'s components are a prefix
of `path`'s. -/

/-- The file-system effects used by `readAgentPromptFile`:
`filepath.EvalSymlinks` (`none` models its error) and `os.ReadFile`
(`none` models any read error). -/
structure PromptFS where
  evalSymlinks : GoPath → Option GoPath
  readFile : GoPath → Option GoStr

/-- `isWithinDir` on cleaned absolute paths. -/
def isWithinDir (p dir : GoPath) : Bool :=
  dir.isPrefixOf p

/-- The `allowedDirs` slice: `~/.claude`, `~/.codex`, `~/.codeagent/agents`. -/
def allowedDirs (home : GoPath) : List GoPath :=
  [home ++ [gs ".claude"], home ++ [gs ".codex"], home ++ [gs ".codeagent", gs "agents"]]

/-- The error message of the restriction branch. -/
def promptFileErrMsg : GoStr :=
  gs "prompt file must be under ~/.claude, ~/.codex, or ~/.codeagent/agents"

/-- The symlink re-check of the restricted branch: when `EvalSymlinks`
succeeds on the path and at least one allowed root resolves, the resolved
path must be within a resolved root; otherwise the check is skipped. -/
def resolvedCheckPasses (fs : PromptFS) (home : GoPath) (absPath : GoPath) : Bool :=
  match fs.evalSymlinks absPath with
  | none => true
  | some resolvedPath =>
    let resolvedAllowed := (allowedDirs home).filterMap fs.evalSymlinks
    if resolvedAllowed.isEmpty then true
    else resolvedAllowed.any (fun d => isWithinDir resolvedPath d)

/-- The final `os.ReadFile` plus `strings.TrimRight(data, "\r\n")`. -/
def readPromptData (fs : PromptFS) (absPath : GoPath) : Except GoStr GoStr :=
  match fs.readFile absPath with
  | none => Except.error (gs "read error")
  | some data => Except.ok (goTrimRightCRLF data)

/-- The part of `readAgentPromptFile` past path normalisation, on the
cleaned absolute path.  `home?` is the `os.UserHomeDir` result used for
the allow-list (`none` models its error). -/
def readAgentPromptFileAbs (fs : PromptFS) (home? : Option GoPath)
    (absPath : GoPath) (allowOutsideClaudeDir : Bool) : Except GoStr GoStr :=
  match home? with
  | none =>
    if !allowOutsideClaudeDir then Except.error (gs "home dir error")
    else readPromptData fs absPath
  | some home =>
    if !allowOutsideClaudeDir then
      if !(allowedDirs home).any (fun d => isWithinDir absPath d) then
        Except.error promptFileErrMsg
      else if !resolvedCheckPasses fs home absPath then
        Except.error promptFileErrMsg
      else readPromptData fs absPath
    else readPromptData fs absPath

/-- `readAgentPromptFile` on the raw path argument.  Tilde expansion,
`filepath.Abs` and `filepath.Clean` are abstracted into the parameter
`toAbs` (with `none` modelling an error in that phase); the Go code applies
them only after the trimmed-empty short-circuit. -/
def readAgentPromptFile (fs : PromptFS) (home? : Option GoPath)
    (toAbs : GoStr → Option GoPath) (path : GoStr)
    (allowOutsideClaudeDir : Bool) : Except GoStr GoStr :=
  let raw := goTrimSpace path
  if raw.isEmpty then Except.ok []
  else
    match toAbs raw with
    | none => Except.error (gs "abs error")
    | some absPath => readAgentPromptFileAbs fs home? absPath allowOutsideClaudeDir

-- A concrete file system mirroring `TestReadAgentPromptFile_RestrictedAllowsClaudeDir`.
def promptPath : GoPath := exampleHome ++ [gs ".claude", gs "prompt.md"]

def examplePromptFS : PromptFS where
  evalSymlinks := fun p =>
    if p = promptPath ∨ p ∈ allowedDirs exampleHome then some p else none
  readFile := fun p => if p = promptPath then some (gs "OK\n") else none

example :
    readAgentPromptFileAbs examplePromptFS (some exampleHome) promptPath false
      = Except.ok (gs "OK") := by rfl

example :
    readAgentPromptFileAbs examplePromptFS (some exampleHome)
      (exampleHome ++ [gs "prompt.md"]) false = Except.error promptFileErrMsg := by rfl

example :
    readAgentPromptFile examplePromptFS (some exampleHome) (fun _ => none) (gs "   ") false
      = Except.ok [] := by rfl



/-! ## Helper lemmas -/

theorem skillBlock_length (name body : GoStr) :
    (skillBlock name body).length = tagOverhead name + body.length := by
  simp [skillBlock, tagOverhead, gs]
  omega

/-- Case analysis on one loop iteration: a `last` block consumes the
remaining budget exactly; a `cont` block plus the new remaining budget
equals the old one, with the new budget positive. -/
theorem skillStep_cases (fs : SkillFS) (home : GoPath) (n : GoStr) (r : Int) :
    skillStep fs home n r = SkillStep.skip
    ∨ skillStep fs home n r = SkillStep.stop
    ∨ (∃ b, skillStep fs home n r = SkillStep.last b ∧ (b.length : Int) = r)
    ∨ (∃ b r2, skillStep fs home n r = SkillStep.cont b r2 ∧ 0 < r2 ∧ (b.length : Int) + r2 = r) := by
  rw [skillStep]
  simp only []
  by_cases h1 : (goTrimSpace n).isEmpty = true
  · rw [if_pos h1]; exact Or.inl rfl
  · rw [if_neg h1]
    by_cases h2 : (!validSkillName (goTrimSpace n)) = true
    · rw [if_pos h2]; exact Or.inl rfl
    · rw [if_neg h2]
      cases hf : findSkillFile fs home (goTrimSpace n) with
      | none => exact Or.inl rfl
      | some path =>
        simp only []
        cases hd : fs.readFile path with
        | none => exact Or.inl rfl
        | some data =>
          simp only []
          by_cases h3 : data.isEmpty = true
          · rw [if_pos h3]; exact Or.inl rfl
          · rw [if_neg h3]
            by_cases hbb : r - (tagOverhead (goTrimSpace n) : Int) ≤ 0
            · rw [if_pos hbb]; exact Or.inr (Or.inl rfl)
            · rw [if_neg hbb]
              by_cases htr : ((stripYAMLFrontmatter (goTrimSpace data)).length : Int) > r - (tagOverhead (goTrimSpace n) : Int)
              · rw [if_pos htr]
                by_cases hr2 : r - ((((stripYAMLFrontmatter (goTrimSpace data)).take (r - (tagOverhead (goTrimSpace n) : Int)).toNat).length : Int) + (tagOverhead (goTrimSpace n) : Int)) ≤ 0
                · rw [if_pos hr2]
                  refine Or.inr (Or.inr (Or.inl ⟨_, rfl, ?_⟩))
                  rw [skillBlock_length, List.length_take]
                  rw [List.length_take] at hr2
                  omega
                · rw [if_neg hr2]
                  refine Or.inr (Or.inr (Or.inr ⟨_, _, rfl, ?_, ?_⟩))
                  · rw [List.length_take] at hr2 ⊢
                    omega
                  · rw [skillBlock_length, List.length_take]
                    rw [List.length_take] at hr2
                    omega
              · rw [if_neg htr]
                by_cases hr2 : r - (((stripYAMLFrontmatter (goTrimSpace data)).length : Int) + (tagOverhead (goTrimSpace n) : Int)) ≤ 0
                · rw [if_pos hr2]
                  refine Or.inr (Or.inr (Or.inl ⟨_, rfl, ?_⟩))
                  rw [skillBlock_length]
                  omega
                · rw [if_neg hr2]
                  refine Or.inr (Or.inr (Or.inr ⟨_, _, rfl, ?_, ?_⟩))
                  · omega
                  · rw [skillBlock_length]
                    omega

/-- Loop invariant: with a non-negative remaining budget the produced
blocks never total more than that budget. -/
theorem resolveSkillSections_sum_le (fs : SkillFS) (home : GoPath) :
    ∀ (skills : List GoStr) (r : Int), 0 ≤ r →
      (((resolveSkillSections fs home skills r).map List.length).sum : Int) ≤ r := by
  intro skills
  induction skills with
  | nil =>
    intro r hr
    simpa [resolveSkillSections] using hr
  | cons n rest ih =>
    intro r hr
    rw [resolveSkillSections]
    rcases skillStep_cases fs home n r with hstep | hstep | ⟨b, hstep, hlen⟩ | ⟨b, r2, hstep, hpos, hlen⟩
    · rw [hstep]
      exact ih r hr
    · rw [hstep]
      simpa using hr
    · rw [hstep]
      simp only [List.map_cons, List.map_nil, List.sum_cons, List.sum_nil, Nat.add_zero]
      omega
    · rw [hstep]
      have h3 := ih r2 (le_of_lt hpos)
      simp only [List.map_cons, List.sum_cons]
      push_cast
      push_cast at h3
      omega

/-! ## Claim theorems -/

/-- C1: for every list of skill names and every positive budget `B`, the
sum of the byte lengths of the wrapped skill blocks that
`ResolveSkillContent` includes in its result (the blocks it joins with
blank lines) never exceeds `B`. -/
theorem c1_skill_budget_respected (fs : SkillFS) (home : GoPath)
    (skills : List GoStr) (B : Int) (hB : 0 < B) :
    (((resolveSkillSections fs home skills B).map List.length).sum : Int) ≤ B
    ∧ ResolveSkillContent fs (some home) skills B
        = joinSections (resolveSkillSections fs home skills B) := by
  constructor
  · exact resolveSkillSections_sum_le fs home skills B (le_of_lt hB)
  · rw [ResolveSkillContent]
    rw [if_neg (by omega)]

/-- Witness for C1 at the budget 50 and the skill of the Go unit tests. -/
theorem c1_skill_budget_respected_witness :
    (0 : Int) < 50
    ∧ ((((resolveSkillSections exampleFS exampleHome [gs "test-skill"] 50).map
          List.length).sum : Int) ≤ 50
        ∧ ResolveSkillContent exampleFS (some exampleHome) [gs "test-skill"] 50
            = joinSections (resolveSkillSections exampleFS exampleHome [gs "test-skill"] 50)) :=
  ⟨by decide, c1_skill_budget_respected exampleFS exampleHome [gs "test-skill"] 50 (by decide)⟩

/-- C4 counterexample: stripping `"\r\r\n"` once gives `"\r\n"`, stripping
twice gives `"\n"`, so the stripper is not idempotent as claimed. -/
theorem c4_strip_not_idempotent :
    stripYAMLFrontmatter (stripYAMLFrontmatter (gs "\r\r\n"))
      ≠ stripYAMLFrontmatter (gs "\r\r\n") := by
  decide

/-- C4 amended: the stripper is idempotent on every input whose once-stripped
output is CRLF-free and does not itself begin with `---` (the two escapes the
counterexamples exploit). -/
theorem c4_strip_conditional_idempotent (s : GoStr)
    (h1 : replaceCRLF (stripYAMLFrontmatter s) = stripYAMLFrontmatter s)
    (h2 : (gs "---").isPrefixOf (stripYAMLFrontmatter s) = false) :
    stripYAMLFrontmatter (stripYAMLFrontmatter s) = stripYAMLFrontmatter s := by
  have key : ∀ t : GoStr, replaceCRLF t = t → (gs "---").isPrefixOf t = false →
      stripYAMLFrontmatter t = t := by
    intro t ht1 ht2
    simp only [stripYAMLFrontmatter, ht1, ht2]
    simp
  exact key _ h1 h2

/-- Witness for C4 on the documents of the Go unit tests. -/
theorem c4_strip_conditional_idempotent_witness :
    replaceCRLF (stripYAMLFrontmatter (gs "---\nname: test\n---\n\n# Body"))
        = stripYAMLFrontmatter (gs "---\nname: test\n---\n\n# Body")
    ∧ (gs "---").isPrefixOf (stripYAMLFrontmatter (gs "---\nname: test\n---\n\n# Body")) = false
    ∧ stripYAMLFrontmatter (stripYAMLFrontmatter (gs "---\nname: test\n---\n\n# Body"))
        = stripYAMLFrontmatter (gs "---\nname: test\n---\n\n# Body") :=
  ⟨by decide, by decide, c4_strip_conditional_idempotent _ (by decide) (by decide)⟩

/-- C5 counterexample: the assembled prompt is not
`"<agent-prompt>" + P + "</agent-prompt>" + "\n\n" + T`: a newline is also
inserted after the opening tag and before the closing tag. -/
theorem c5_wrap_counterexample :
    wrapTaskWithAgentPrompt (gs "p") (gs "t")
      ≠ gs "<agent-prompt>" ++ gs "p" ++ gs "</agent-prompt>" ++ gs "\n\n" ++ gs "t" := by
  decide

/-- C5 amended: the assembled prompt equals the spec template with the file
contents additionally framed by single newlines inside the tags:
`"<agent-prompt>" + ("\n" + P + "\n") + "</agent-prompt>" + "\n\n" + T`,
with no other characters inserted. -/
theorem c5_wrap_format (P T : GoStr) :
    wrapTaskWithAgentPrompt P T
      = gs "<agent-prompt>" ++ (gs "\n" ++ P ++ gs "\n") ++ gs "</agent-prompt>"
          ++ gs "\n\n" ++ T := by
  have h1 : gs "<agent-prompt>\n" = gs "<agent-prompt>" ++ gs "\n" := by decide
  have h2 : gs "\n</agent-prompt>\n\n" = gs "\n" ++ (gs "</agent-prompt>" ++ gs "\n\n") := by
    decide
  rw [wrapTaskWithAgentPrompt, h1, h2]
  simp [List.append_assoc]

/-- C7: skill resolution probes the Codex skills directory before the
Claude one and uses the first `SKILL.md` found; when the Codex copy exists
the Claude copy is ignored. -/
theorem c7_codex_dir_searched_first (fs : SkillFS) (home : GoPath) (name : GoStr) :
    (fs.statOk (codexSkillPath home name) = true →
      findSkillFile fs home name = some (codexSkillPath home name))
    ∧ (fs.statOk (codexSkillPath home name) = false →
        fs.statOk (claudeSkillPath home name) = true →
        findSkillFile fs home name = some (claudeSkillPath home name)) := by
  constructor
  · intro h
    rw [findSkillFile, if_pos h]
  · intro h1 h2
    rw [findSkillFile, if_neg (by simp [h1]), if_pos h2]

/-- A file system with the same skill installed under both roots, as in
`TestResolveSkillContent_PrefersCodexOverClaude`. -/
def dupSkillFS : SkillFS where
  statOk := fun p =>
    p == codexSkillPath exampleHome (gs "dup-skill")
      || p == claudeSkillPath exampleHome (gs "dup-skill")
  readFile := fun _ => none

/-- Witness for C7 on a skill installed under both roots. -/
theorem c7_codex_dir_searched_first_witness :
    dupSkillFS.statOk (codexSkillPath exampleHome (gs "dup-skill")) = true
    ∧ findSkillFile dupSkillFS exampleHome (gs "dup-skill")
        = some (codexSkillPath exampleHome (gs "dup-skill")) :=
  ⟨by decide,
    (c7_codex_dir_searched_first dupSkillFS exampleHome (gs "dup-skill")).1 (by decide)⟩

/-- Modelled from the spec wording of the budget rule: process skills in
the requested order; for each found skill subtract the wrapping overhead
from the remaining budget; truncate the stripped body to fit the remaining
body budget; once the remaining budget cannot cover a block's wrapping
overhead plus one body byte, omit that skill and every later one. -/
def resolveSkillSectionsSpec (fs : SkillFS) (home : GoPath) : List GoStr → Int → List GoStr
  | [], _ => []
  | name0 :: rest, remaining =>
    let name := goTrimSpace name0
    if name.isEmpty then resolveSkillSectionsSpec fs home rest remaining
    else if !validSkillName name then resolveSkillSectionsSpec fs home rest remaining
    else
      match findSkillFile fs home name with
      | none => resolveSkillSectionsSpec fs home rest remaining
      | some path =>
        match fs.readFile path with
        | none => resolveSkillSectionsSpec fs home rest remaining
        | some data =>
          if data.isEmpty then resolveSkillSectionsSpec fs home rest remaining
          else
            let body := stripYAMLFrontmatter (goTrimSpace data)
            if remaining - (tagOverhead name : Int) ≤ 0 then []
            else
              let body2 := body.take (min body.length (remaining - (tagOverhead name : Int)).toNat)
              skillBlock name body2 ::
                resolveSkillSectionsSpec fs home rest
                  (remaining - ((body2.length : Int) + (tagOverhead name : Int)))

/-- With a non-positive remaining budget the spec-level resolver omits
every remaining skill. -/
theorem resolveSkillSectionsSpec_nonpos (fs : SkillFS) (home : GoPath) :
    ∀ (skills : List GoStr) (r : Int), r ≤ 0 →
      resolveSkillSectionsSpec fs home skills r = [] := by
  intro skills
  induction skills with
  | nil => intro r hr; rfl
  | cons n rest ih =>
    intro r hr
    rw [resolveSkillSectionsSpec]
    simp only []
    by_cases h1 : (goTrimSpace n).isEmpty = true
    · rw [if_pos h1]; exact ih r hr
    · rw [if_neg h1]
      by_cases h2 : (!validSkillName (goTrimSpace n)) = true
      · rw [if_pos h2]; exact ih r hr
      · rw [if_neg h2]
        cases hf : findSkillFile fs home (goTrimSpace n) with
        | none => exact ih r hr
        | some path =>
          simp only []
          cases hd : fs.readFile path with
          | none => exact ih r hr
          | some data =>
            simp only []
            by_cases h3 : data.isEmpty = true
            · rw [if_pos h3]; exact ih r hr
            · rw [if_neg h3]
              rw [if_pos (by omega)]

/-- C3: the skill loop processes skills in the requested order, subtracts
the wrapping overhead per skill, truncates an over-long stripped body to
the remaining body budget (the skill still included, never truncated to
zero bytes), and omits the current and all later skills once the remaining
budget cannot cover a block's wrapping overhead plus one body byte: the
loop coincides with the spec-level resolver written from those words. -/
theorem c3_spec_matches_code (fs : SkillFS) (home : GoPath) :
    ∀ (skills : List GoStr) (r : Int),
      resolveSkillSectionsSpec fs home skills r = resolveSkillSections fs home skills r := by
  intro skills
  induction skills with
  | nil => intro r; rfl
  | cons n rest ih =>
    intro r
    rw [resolveSkillSections, resolveSkillSectionsSpec, skillStep]
    simp only []
    by_cases h1 : (goTrimSpace n).isEmpty = true
    · rw [if_pos h1, if_pos h1]; exact ih r
    · rw [if_neg h1, if_neg h1]
      by_cases h2 : (!validSkillName (goTrimSpace n)) = true
      · rw [if_pos h2, if_pos h2]; exact ih r
      · rw [if_neg h2, if_neg h2]
        cases hf : findSkillFile fs home (goTrimSpace n) with
        | none => exact ih r
        | some path =>
          simp only []
          cases hd : fs.readFile path with
          | none => exact ih r
          | some data =>
            simp only []
            by_cases h3 : data.isEmpty = true
            · rw [if_pos h3, if_pos h3]; exact ih r
            · rw [if_neg h3, if_neg h3]
              by_cases hbb : r - (tagOverhead (goTrimSpace n) : Int) ≤ 0
              · rw [if_pos hbb, if_pos hbb]
              · rw [if_neg hbb, if_neg hbb]
                by_cases htr : ((stripYAMLFrontmatter (goTrimSpace data)).length : Int)
                    > r - (tagOverhead (goTrimSpace n) : Int)
                · rw [if_pos htr]
                  have hmin : min (stripYAMLFrontmatter (goTrimSpace data)).length
                      (r - (tagOverhead (goTrimSpace n) : Int)).toNat
                      = (r - (tagOverhead (goTrimSpace n) : Int)).toNat := by
                    omega
                  rw [hmin]
                  by_cases hr2 : r - ((((stripYAMLFrontmatter (goTrimSpace data)).take
                      (r - (tagOverhead (goTrimSpace n) : Int)).toNat).length : Int)
                      + (tagOverhead (goTrimSpace n) : Int)) ≤ 0
                  · rw [if_pos hr2]
                    rw [resolveSkillSectionsSpec_nonpos fs home rest _ hr2]
                  · rw [if_neg hr2]
                    rw [ih]
                · rw [if_neg htr]
                  have hmin : min (stripYAMLFrontmatter (goTrimSpace data)).length
                      (r - (tagOverhead (goTrimSpace n) : Int)).toNat
                      = (stripYAMLFrontmatter (goTrimSpace data)).length := by
                    omega
                  rw [hmin, List.take_length]
                  by_cases hr2 : r - ((((stripYAMLFrontmatter (goTrimSpace data)).length : Int))
                      + (tagOverhead (goTrimSpace n) : Int)) ≤ 0
                  · rw [if_pos hr2]
                    rw [resolveSkillSectionsSpec_nonpos fs home rest _ hr2]
                  · rw [if_neg hr2]
                    rw [ih]

/-- C6: a requested name that (after trimming) fails `^[a-zA-Z0-9_-]+$`
contributes no skill block, at any position in the request list, on every
file system (in particular no file derived from it is ever consulted). -/
theorem c6_invalid_names_dropped (fs : SkillFS) (home : GoPath)
    (before after : List GoStr) (name : GoStr) (r : Int)
    (h : validSkillName (goTrimSpace name) = false) :
    resolveSkillSections fs home (before ++ name :: after) r
      = resolveSkillSections fs home (before ++ after) r := by
  induction before generalizing r with
  | nil =>
    simp only [List.nil_append]
    rw [resolveSkillSections]
    have hstep : skillStep fs home name r = SkillStep.skip := by
      rw [skillStep]
      simp only []
      by_cases h1 : (goTrimSpace name).isEmpty = true
      · rw [if_pos h1]
      · rw [if_neg h1, if_pos (by simp [h])]
    rw [hstep]
  | cons b before2 ih =>
    simp only [List.cons_append]
    rw [resolveSkillSections, resolveSkillSections]
    cases hstep : skillStep fs home b r with
    | skip => exact ih r
    | stop => rfl
    | last blk => rfl
    | cont blk r2 => exact congrArg (List.cons blk) (ih r2)

/-- Witness for C6: the traversal name of `TestResolveSkillContent_PathTraversal`
is dropped after a valid skill. -/
theorem c6_invalid_names_dropped_witness :
    validSkillName (goTrimSpace (gs "../bad")) = false
    ∧ resolveSkillSections exampleFS exampleHome ([gs "test-skill"] ++ gs "../bad" :: []) 100
        = resolveSkillSections exampleFS exampleHome ([gs "test-skill"] ++ []) 100 :=
  ⟨by decide,
    c6_invalid_names_dropped exampleFS exampleHome [gs "test-skill"] [] (gs "../bad") 100
      (by decide)⟩

/-- Invariants of the inner detection loop: the accumulator stays inside
the `seen` set, stays duplicate-free, and grows only by skills whose
`SKILL.md` was found. -/
theorem addEntrySkills_props (fs : SkillFS) (home : GoPath) :
    ∀ (skills seen acc : List GoStr),
      (∀ x, x ∈ acc → x ∈ seen) → acc.Nodup →
      ((∀ x, x ∈ (addEntrySkills fs home skills (seen, acc)).2 →
          x ∈ (addEntrySkills fs home skills (seen, acc)).1)
        ∧ (addEntrySkills fs home skills (seen, acc)).2.Nodup
        ∧ (∀ x, x ∈ (addEntrySkills fs home skills (seen, acc)).2 →
            x ∈ acc ∨ findSkillFile fs home x ≠ none)) := by
  intro skills
  induction skills with
  | nil =>
    intro seen acc h1 h2
    exact ⟨h1, h2, fun x hx => Or.inl hx⟩
  | cons s more ih =>
    intro seen acc h1 h2
    rw [addEntrySkills]
    by_cases hs : seen.contains s = true
    · rw [if_pos hs]
      exact ih seen acc h1 h2
    · rw [if_neg hs]
      cases hf : findSkillFile fs home s with
      | none => exact ih seen acc h1 h2
      | some p =>
        have hsnotin : s ∉ acc := by
          intro hmem
          exact hs (List.elem_iff.2 (h1 s hmem))
        have h1' : ∀ x, x ∈ acc ++ [s] → x ∈ seen ++ [s] := by
          intro x hx
          rcases List.mem_append.1 hx with hx | hx
          · exact List.mem_append.2 (Or.inl (h1 x hx))
          · exact List.mem_append.2 (Or.inr hx)
        have h2' : (acc ++ [s]).Nodup := by
          rw [List.nodup_append]
          refine ⟨h2, List.nodup_singleton s, ?_⟩
          intro a ha hb
          rw [List.mem_singleton] at hb
          subst hb
          exact hsnotin ha
        obtain ⟨g1, g2, g3⟩ := ih (seen ++ [s]) (acc ++ [s]) h1' h2'
        refine ⟨g1, g2, ?_⟩
        intro x hx
        rcases g3 x hx with hx2 | hx2
        · rcases List.mem_append.1 hx2 with hmem | hmem
          · exact Or.inl hmem
          · rw [List.mem_singleton] at hmem
            subst hmem
            rw [hf]
            exact Or.inr (fun hcc => Option.noConfusion hcc)
        · exact Or.inr hx2

/-- The loop-level invariants lifted over the fingerprint table. -/
theorem detectAux_props (fs : SkillFS) (home workDir : GoPath) :
    ∀ (entries : List (List GoStr × List GoStr)) (seen acc : List GoStr),
      (∀ x, x ∈ acc → x ∈ seen) → acc.Nodup →
      ((∀ x, x ∈ (detectAux fs home workDir entries (seen, acc)).2 →
          x ∈ (detectAux fs home workDir entries (seen, acc)).1)
        ∧ (detectAux fs home workDir entries (seen, acc)).2.Nodup
        ∧ (∀ x, x ∈ (detectAux fs home workDir entries (seen, acc)).2 →
            x ∈ acc ∨ findSkillFile fs home x ≠ none)) := by
  intro entries
  induction entries with
  | nil =>
    intro seen acc h1 h2
    exact ⟨h1, h2, fun x hx => Or.inl hx⟩
  | cons e rest ih =>
    intro seen acc h1 h2
    obtain ⟨files, skills⟩ := e
    rw [detectAux]
    by_cases hfile : files.any (fun f => fs.statOk (workDir ++ [f])) = true
    · rw [if_pos hfile]
      obtain ⟨a1, a2, a3⟩ := addEntrySkills_props fs home skills seen acc h1 h2
      obtain ⟨b1, b2, b3⟩ := ih (addEntrySkills fs home skills (seen, acc)).1
        (addEntrySkills fs home skills (seen, acc)).2 a1 a2
      refine ⟨b1, b2, ?_⟩
      intro x hx
      rcases b3 x hx with h | h
      · exact a3 x h
      · exact Or.inr h
    · rw [if_neg hfile]
      exact ih seen acc h1 h2

/-- When no fingerprint file stats, the detection loop leaves its state
untouched. -/
theorem detectAux_no_match (fs : SkillFS) (home workDir : GoPath) :
    ∀ (entries : List (List GoStr × List GoStr)) (st : List GoStr × List GoStr),
      (∀ pr, pr ∈ entries → ∀ f, f ∈ pr.1 → fs.statOk (workDir ++ [f]) = false) →
      detectAux fs home workDir entries st = st := by
  intro entries
  induction entries with
  | nil => intro st h; rfl
  | cons e rest ih =>
    intro st h
    obtain ⟨files, skills⟩ := e
    rw [detectAux]
    rw [if_neg ?_]
    · exact ih st (fun pr hpr f hf => h pr (List.mem_cons_of_mem _ hpr) f hf)
    · intro hany
      obtain ⟨f, hf, hstat⟩ := List.any_eq_true.1 hany
      have := h (files, skills) (List.mem_cons_self _ _) f hf
      rw [this] at hstat
      exact Bool.false_ne_true hstat

/-- If `findSkillFile` found a path then one of the two roots stats. -/
theorem findSkillFile_stats (fs : SkillFS) (home : GoPath) (s : GoStr)
    (h : findSkillFile fs home s ≠ none) :
    fs.statOk (codexSkillPath home s) = true ∨ fs.statOk (claudeSkillPath home s) = true := by
  rw [findSkillFile] at h
  by_cases h1 : fs.statOk (codexSkillPath home s) = true
  · exact Or.inl h1
  · right
    rw [if_neg h1] at h
    by_cases h2 : fs.statOk (claudeSkillPath home s) = true
    · exact h2
    · rw [if_neg h2] at h
      exact absurd rfl h

/-- C8: the auto-detected skill list contains no duplicate names, even
when several fingerprints map to the same skill. -/
theorem c8_detect_no_duplicates (fs : SkillFS) (home? : Option GoPath) (workDir : GoPath) :
    (DetectProjectSkills fs home? workDir).Nodup := by
  cases home? with
  | none => exact List.nodup_nil
  | some home =>
    exact (detectAux_props fs home workDir techSkillMap [] []
      (fun x hx => absurd hx (List.not_mem_nil x)) List.nodup_nil).2.1

/-- C9: every auto-detected skill has an existing `SKILL.md` under the
Codex or the Claude skills root at detection time; a working directory
with no fingerprint files, or a home-directory error, yields no skills. -/
theorem c9_detect_only_installed (fs : SkillFS) (home workDir : GoPath) :
    DetectProjectSkills fs none workDir = []
    ∧ ((∀ pr, pr ∈ techSkillMap → ∀ f, f ∈ pr.1 → fs.statOk (workDir ++ [f]) = false) →
        DetectProjectSkills fs (some home) workDir = [])
    ∧ (∀ s, s ∈ DetectProjectSkills fs (some home) workDir →
        fs.statOk (codexSkillPath home s) = true
          ∨ fs.statOk (claudeSkillPath home s) = true) := by
  refine ⟨rfl, ?_, ?_⟩
  · intro h
    show (detectAux fs home workDir techSkillMap ([], [])).2 = []
    rw [detectAux_no_match fs home workDir techSkillMap ([], []) h]
  · intro s hs
    have h3 := (detectAux_props fs home workDir techSkillMap [] []
      (fun x hx => absurd hx (List.not_mem_nil x)) List.nodup_nil).2.2
    rcases h3 s hs with h | h
    · exact absurd h (List.not_mem_nil s)
    · exact findSkillFile_stats fs home s h

/-- A file system with a Node fingerprint in the working directory and the
mapped skill installed only under the Codex root, as in
`TestDetectProjectSkills_CodexOnlySkill`. -/
def detectFS : SkillFS where
  statOk := fun p =>
    p == [gs "work", gs "package.json"]
      || p == codexSkillPath exampleHome (gs "frontend-design")
  readFile := fun _ => none

/-- Witness for C9 on the two concrete file systems. -/
theorem c9_detect_only_installed_witness :
    (∀ pr, pr ∈ techSkillMap → ∀ f, f ∈ pr.1 →
        exampleFS.statOk ([gs "w"] ++ [f]) = false)
    ∧ DetectProjectSkills exampleFS (some exampleHome) [gs "w"] = []
    ∧ (gs "frontend-design") ∈ DetectProjectSkills detectFS (some exampleHome) [gs "work"]
    ∧ (detectFS.statOk (codexSkillPath exampleHome (gs "frontend-design")) = true
        ∨ detectFS.statOk (claudeSkillPath exampleHome (gs "frontend-design")) = true) :=
  ⟨by decide,
    (c9_detect_only_installed exampleFS exampleHome [gs "w"]).2.1 (by decide),
    by decide,
    (c9_detect_only_installed detectFS exampleHome [gs "work"]).2.2
      (gs "frontend-design") (by decide)⟩

/-- Dropping a satisfied-prefix is idempotent. -/
theorem dropWhile_idem (p : Char → Bool) : ∀ l : GoStr,
    (l.dropWhile p).dropWhile p = l.dropWhile p := by
  intro l
  induction l with
  | nil => rfl
  | cons x xs ih =>
    rw [List.dropWhile_cons]
    by_cases h : p x = true
    · rw [if_pos h]
      exact ih
    · rw [if_neg h, List.dropWhile_cons, if_neg h]

/-- `goTrimRightCRLF` is idempotent, i.e. its output has no trailing CR/LF. -/
theorem goTrimRightCRLF_idem (s : GoStr) :
    goTrimRightCRLF (goTrimRightCRLF s) = goTrimRightCRLF s := by
  rw [goTrimRightCRLF, goTrimRightCRLF, List.reverse_reverse, dropWhile_idem]

/-- Dropping a predicate satisfied everywhere empties the list. -/
theorem dropWhile_all_eq_nil (p : Char → Bool) : ∀ l : GoStr,
    l.all p = true → l.dropWhile p = [] := by
  intro l
  induction l with
  | nil => intro h; rfl
  | cons x xs ih =>
    intro h
    rw [List.all_cons, Bool.and_eq_true] at h
    rw [List.dropWhile_cons, if_pos h.1]
    exact ih h.2

/-- A whitespace-only byte string trims to the empty string. -/
theorem goTrimSpace_all_space (s : GoStr) (h : s.all isSpaceChar = true) :
    goTrimSpace s = [] := by
  rw [goTrimSpace, dropWhile_all_eq_nil isSpaceChar s h]
  rfl

/-- A successful low-level read is the file contents with trailing CR/LF
removed. -/
theorem readPromptData_ok (fs : PromptFS) (p : GoPath) (c : GoStr)
    (h : readPromptData fs p = Except.ok c) : goTrimRightCRLF c = c := by
  rw [readPromptData] at h
  cases hd : fs.readFile p with
  | none =>
    rw [hd] at h
    exact absurd h (by simp)
  | some data =>
    rw [hd] at h
    injection h with h
    subst h
    exact goTrimRightCRLF_idem data

/-- Every successful result of the post-normalisation reader is CR/LF
trimmed on the right. -/
theorem readAgentPromptFileAbs_ok (fs : PromptFS) (home? : Option GoPath)
    (absPath : GoPath) (allow : Bool) (c : GoStr)
    (h : readAgentPromptFileAbs fs home? absPath allow = Except.ok c) :
    goTrimRightCRLF c = c := by
  cases home? with
  | none =>
    rw [readAgentPromptFileAbs] at h
    by_cases hallow : (!allow) = true
    · rw [if_pos hallow] at h
      exact absurd h (by simp)
    · rw [if_neg hallow] at h
      exact readPromptData_ok fs absPath c h
  | some home =>
    rw [readAgentPromptFileAbs] at h
    by_cases hallow : (!allow) = true
    · rw [if_pos hallow] at h
      by_cases h1 : (!(allowedDirs home).any fun d => isWithinDir absPath d) = true
      · rw [if_pos h1] at h
        exact absurd h (by simp)
      · rw [if_neg h1] at h
        by_cases h2 : (!resolvedCheckPasses fs home absPath) = true
        · rw [if_pos h2] at h
          exact absurd h (by simp)
        · rw [if_neg h2] at h
          exact readPromptData_ok fs absPath c h
    · rw [if_neg hallow] at h
      exact readPromptData_ok fs absPath c h

/-- C10: a whitespace-only (or empty) path argument yields the empty
string and no error, uniformly in the file system and the path
normalisation (so neither is consulted); and every successful result has
all trailing carriage-return and newline bytes removed. -/
theorem c10_blank_path_and_trailing_trim (fs : PromptFS) (home? : Option GoPath)
    (toAbs : GoStr → Option GoPath) (path : GoStr) (allowOutsideClaudeDir : Bool) :
    (path.all isSpaceChar = true →
      readAgentPromptFile fs home? toAbs path allowOutsideClaudeDir = Except.ok [])
    ∧ (∀ c, readAgentPromptFile fs home? toAbs path allowOutsideClaudeDir = Except.ok c →
        goTrimRightCRLF c = c) := by
  constructor
  · intro hws
    rw [readAgentPromptFile]
    rw [goTrimSpace_all_space path hws]
    rfl
  · intro c hc
    rw [readAgentPromptFile] at hc
    by_cases h0 : (goTrimSpace path).isEmpty = true
    · rw [if_pos h0] at hc
      injection hc with hc
      subst hc
      rfl
    · rw [if_neg h0] at hc
      cases hab : toAbs (goTrimSpace path) with
      | none =>
        rw [hab] at hc
        exact absurd hc (by simp)
      | some absPath =>
        rw [hab] at hc
        exact readAgentPromptFileAbs_ok fs home? absPath allowOutsideClaudeDir c hc

/-- A file system for the C10 witness: one readable file with trailing
CR/LF bytes. -/
def c10FS : PromptFS where
  evalSymlinks := fun _ => none
  readFile := fun p => if p == [gs "x"] then some (gs "hi\r\n\n") else none

/-- Witness for C10 at a blank path and at a concrete successful read. -/
theorem c10_blank_path_and_trailing_trim_witness :
    readAgentPromptFile c10FS none (fun _ => some [gs "x"]) (gs "  \t ") true = Except.ok []
    ∧ goTrimRightCRLF (gs "hi") = gs "hi" :=
  ⟨(c10_blank_path_and_trailing_trim c10FS none (fun _ => some [gs "x"])
      (gs "  \t ") true).1 (by decide),
    (c10_blank_path_and_trailing_trim c10FS none (fun _ => some [gs "x"])
      (gs "p") true).2 (gs "hi") (by rfl)⟩

/-- The symlink target of the C2 counterexample: a file inside `~/.codex`. -/
def c2Target : GoPath := exampleHome ++ [gs ".codex", gs "prompt.md"]

/-- The lexical path of the C2 counterexample: `/tmp/link`, outside every
allowed directory, resolving by symlink to `c2Target`. -/
def c2Link : GoPath := [gs "tmp", gs "link"]

/-- A file system in which `/tmp/link` is a readable symlink into
`~/.codex` and the three allowed roots resolve to themselves. -/
def c2FS : PromptFS where
  evalSymlinks := fun p =>
    if p == c2Link then some c2Target
    else if p == exampleHome ++ [gs ".claude"] then some (exampleHome ++ [gs ".claude"])
    else if p == exampleHome ++ [gs ".codex"] then some (exampleHome ++ [gs ".codex"])
    else if p == exampleHome ++ [gs ".codeagent", gs "agents"] then
      some (exampleHome ++ [gs ".codeagent", gs "agents"])
    else none
  readFile := fun p => if p == c2Link then some (gs "hello\n") else none

/-- C2 counterexample: a readable file whose symlink-resolved path lies
inside `~/.codex` is nevertheless rejected, because its lexical absolute
path lies outside the allowed directories. -/
theorem c2_counterexample :
    c2FS.evalSymlinks c2Link = some c2Target
    ∧ isWithinDir c2Target (exampleHome ++ [gs ".codex"]) = true
    ∧ c2FS.readFile c2Link = some (gs "hello\n")
    ∧ readAgentPromptFileAbs c2FS (some exampleHome) c2Link false
        = Except.error promptFileErrMsg :=
  ⟨by rfl, by decide, by rfl, by rfl⟩

/-- C2 amended: with the restriction enabled, a path whose cleaned
absolute form lies outside all three allowed directories is rejected even
if its symlink-resolved form lies inside one; a readable file is returned
(trailing CR/LF trimmed) when its absolute form lies inside an allowed
directory and the symlink re-check passes. -/
theorem c2_prompt_path_allowlist (fs : PromptFS) (home absPath : GoPath) :
    ((allowedDirs home).any (fun d => isWithinDir absPath d) = false →
      readAgentPromptFileAbs fs (some home) absPath false = Except.error promptFileErrMsg)
    ∧ (∀ raw, (allowedDirs home).any (fun d => isWithinDir absPath d) = true →
        resolvedCheckPasses fs home absPath = true →
        fs.readFile absPath = some raw →
        readAgentPromptFileAbs fs (some home) absPath false
          = Except.ok (goTrimRightCRLF raw)) := by
  constructor
  · intro h
    rw [readAgentPromptFileAbs]
    rw [if_pos (by simp), if_pos (by simp [h])]
  · intro raw h1 h2 h3
    rw [readAgentPromptFileAbs]
    rw [if_pos (by simp), if_neg (by simp [h1]), if_neg (by simp [h2])]
    rw [readPromptData, h3]

/-- Witness for C2 on the counterexample file system and on the allowed
`~/.claude` read of the Go unit tests. -/
theorem c2_prompt_path_allowlist_witness :
    ((allowedDirs exampleHome).any (fun d => isWithinDir c2Link d) = false
      ∧ readAgentPromptFileAbs c2FS (some exampleHome) c2Link false
          = Except.error promptFileErrMsg)
    ∧ ((allowedDirs exampleHome).any (fun d => isWithinDir promptPath d) = true
      ∧ resolvedCheckPasses examplePromptFS exampleHome promptPath = true
      ∧ examplePromptFS.readFile promptPath = some (gs "OK\n")
      ∧ readAgentPromptFileAbs examplePromptFS (some exampleHome) promptPath false
          = Except.ok (goTrimRightCRLF (gs "OK\n"))) :=
  ⟨⟨by decide, (c2_prompt_path_allowlist c2FS exampleHome c2Link).1 (by decide)⟩,
    ⟨by decide, by decide, by rfl,
      (c2_prompt_path_allowlist examplePromptFS exampleHome promptPath).2
        (gs "OK\n") (by decide) (by decide) (by rfl)⟩⟩
